import Mathlib

/-
Verification of the Chameleon history-obfuscation system against its
natural-language specification.

The frontend utilities (stripMarkdownWrapper, toggleFolder, the terminal-log
categorizer, the editable-editor history stack) are embedded directly from the
TypeScript sources.  The backend core (TimelinePlanner, HistoryRewriter,
RecoveryVault, TaskRegistry, PanicSwitch) is not part of the checked-in
sources, so those components are modelled from the specification text, as
marked on each definition.

Strings are embedded as lists of characters (`List Char`), which matches
JavaScript string semantics for the operations used here (slicing, prefix
and suffix tests, substring search).
-/

namespace Chameleon

/-! ## Embedded from src/frontend/src/app/project/[name]/utils.tsx -/

/-- Embedded from `toggleFolder` (utils.tsx lines 27-35): copy the set of
expanded folders and either delete the path (when present) or add it
(when absent).  A JavaScript `Set<string>` is modelled as `Finset String`. -/
def toggleFolder (expandedFolders : Finset String) (folderPath : String) :
    Finset String :=
  if folderPath ∈ expandedFolders then expandedFolders.erase folderPath
  else insert folderPath expandedFolders

/-- Word characters as matched by the JavaScript regex class `\w`. -/
def isWordChar (c : Char) : Bool := c.isAlphanum || c = '_'

/-- Drops the last `n` characters, as JavaScript `s.slice(0, -n)` does. -/
def dropRight (l : List Char) (n : Nat) : List Char := l.take (l.length - n)

/-- Tests whether `l` ends with `s`, as JavaScript `l.endsWith(s)` does. -/
def endsWith (l s : List Char) : Bool := decide (l.drop (l.length - s.length) = s)

/-- Opening and closing fence of a markdown code block. -/
def fenceMark : List Char := "```".toList

/-- Closing fence preceded by a newline. -/
def closeFence : List Char := "\n```".toList

/-- Lazily captured group of the wrapper regex
`/^[fence][\w]*\n([\s\S]*?)(?:\n[fence])?$/`: because the optional group
must be followed by the end anchor, the capture is the remainder with one
trailing `"\n" ++ fence` removed when the remainder ends with it, and the
whole remainder otherwise. -/
def stripCapture (rest : List Char) : List Char :=
  if endsWith rest closeFence then dropRight rest 4 else rest

/-- Post-processing of the captured group in `stripMarkdownWrapper`:
`slice(0, -4)` when it still ends with a newline and a fence,
else `slice(0, -3)` when it ends with a bare fence. -/
def stripTrail (inner : List Char) : List Char :=
  if endsWith inner closeFence then dropRight inner 4
  else if endsWith inner fenceMark then dropRight inner 3
  else inner

/-- Embedded from `stripMarkdownWrapper` (utils.tsx lines 38-54): match the
anchored wrapper regex (three backticks, a word-character language, a
newline, a lazily captured body, an optional trailing fence), then strip a
remaining trailing fence from the captured group; return the input
unchanged when the regex does not match. -/
def stripMarkdownWrapper (content : List Char) : List Char :=
  if content.take 3 = fenceMark then
    match (content.drop 3).drop ((content.drop 3).takeWhile isWordChar).length with
    | c :: rest => if c = '\n' then stripTrail (stripCapture rest) else content
    | [] => content
  else content

/-- Builds a fenced markdown block: three backticks, a language word, a
newline, the body, and (when `closed` is true) a newline plus a closing
fence.  This is the input shape quantified over by the claim about
`stripMarkdownWrapper`. -/
def mkFenced (lang body : List Char) (closed : Bool) : List Char :=
  fenceMark ++ lang ++ '\n' :: (body ++ if closed then closeFence else [])

/-! ## Embedded from the terminal-log categorizer
(frontend project page, `categorizeTerminalOutput`). -/

/-- Log categories used by the status stream. -/
inductive LogCategory where
  | git
  | code
  | system
  | general
deriving DecidableEq, Repr

/-- Tests whether `s` occurs inside `l`, as JavaScript `l.includes(s)` does. -/
def containsSub (l s : List Char) : Bool :=
  (List.range (l.length + 1)).any (fun i => decide ((l.drop i).take s.length = s))

/-- Embedded from `categorizeTerminalOutput`: a rendered terminal line is a
plain string, and its category is recovered by substring-matching the
bracket tags in the text, first `[git]`, then `[code]`, then `[system]`,
defaulting to `general`. -/
def categorizeTerminalOutput (line : List Char) : LogCategory :=
  if containsSub line "[git]".toList then .git
  else if containsSub line "[code]".toList then .code
  else if containsSub line "[system]".toList then .system
  else .general

/-! ## Embedded from src/frontend/src/components/EditableCodeEditor.tsx -/

/-- Edit operations recorded in the editor history (the TypeScript union
type of `HistoryEntry.operation`, both component variants merged). -/
inductive EditOperation where
  | manualEdit
  | save
  | addComments
  | renameVariables
  | refactorFile
  | untraceableChanges
deriving DecidableEq, Repr

/-- Embedded from `interface HistoryEntry` of EditableCodeEditor.tsx. -/
structure HistoryEntry where
  content : List Char
  timestamp : Nat
  operation : EditOperation
  description : List Char
deriving DecidableEq, Repr

/-- State of the editor's undo history: the entry list and the current
index into it. -/
structure EditorState where
  history : List HistoryEntry
  historyIndex : Nat
deriving DecidableEq, Repr

/-- Embedded from the first `addToHistory` variant (EditableCodeEditor.tsx
lines 101-126): truncate everything after the current index, push the new
entry, keep only the last 50 entries, and move the index to
`min (index + 1) 49`. -/
def addToHistoryA (s : EditorState) (e : HistoryEntry) : EditorState :=
  let newHistory := s.history.take (s.historyIndex + 1) ++ [e]
  let trimmed :=
    if 50 < newHistory.length then newHistory.drop (newHistory.length - 50)
    else newHistory
  { history := trimmed, historyIndex := min (s.historyIndex + 1) 49 }

/-- Embedded from the first `handleUndo` (lines 183-196): step back only
when the index is positive. -/
def undoA (s : EditorState) : EditorState :=
  if 0 < s.historyIndex then { s with historyIndex := s.historyIndex - 1 } else s

/-- Embedded from the first `handleRedo` (lines 198-211): step forward only
when the index is below `history.length - 1`. -/
def redoA (s : EditorState) : EditorState :=
  if s.historyIndex < s.history.length - 1 then
    { s with historyIndex := s.historyIndex + 1 }
  else s

/-- Embedded from the second `addToHistory` variant (EditableCodeEditor.tsx
lines 516-540): same truncation and 50-entry cap, but the index is set to
the last position of the trimmed list. -/
def addToHistoryB (s : EditorState) (e : HistoryEntry) : EditorState :=
  let newHistory := s.history.take (s.historyIndex + 1) ++ [e]
  let trimmed :=
    if 50 < newHistory.length then newHistory.drop (newHistory.length - 50)
    else newHistory
  { history := trimmed, historyIndex := trimmed.length - 1 }

/-- Embedded from the second `handleUndo` (line 600-602):
`max(0, index - 1)`, which is truncated subtraction on naturals. -/
def undoB (s : EditorState) : EditorState :=
  { s with historyIndex := s.historyIndex - 1 }

/-- Embedded from the second `handleRedo` (lines 604-609):
`min(history.length - 1, index + 1)`. -/
def redoB (s : EditorState) : EditorState :=
  { s with historyIndex := min (s.history.length - 1) (s.historyIndex + 1) }

/-- Operations a caller can perform on the editor history.  `update` is
`updateContent`, which delegates to `addToHistory` for its history effect. -/
inductive EditorOp where
  | add (e : HistoryEntry)
  | update (e : HistoryEntry)
  | undo
  | redo

/-- One step of the first component variant. -/
def stepA (s : EditorState) : EditorOp → EditorState
  | .add e => addToHistoryA s e
  | .update e => addToHistoryA s e
  | .undo => undoA s
  | .redo => redoA s

/-- One step of the second component variant. -/
def stepB (s : EditorState) : EditorOp → EditorState
  | .add e => addToHistoryB s e
  | .update e => addToHistoryB s e
  | .undo => undoB s
  | .redo => redoB s

/-- Initial editor state (the initialization effect pushes one entry for the
original content and sets the index to 0). -/
def initialEditorState (v : List Char) (t : Nat) : EditorState :=
  { history := [⟨v, t, .manualEdit, "Initial content".toList⟩], historyIndex := 0 }

/-- Bounds the claim is about: at most 50 entries and an index that is a
valid position of the entry list. -/
def editorInv (s : EditorState) : Prop :=
  s.history.length ≤ 50 ∧ s.historyIndex < s.history.length

/-! ## Backend core, modelled from the specification.

The Python backend (TimelinePlanner, HistoryRewriter, RecoveryVault,
TaskRegistry, PanicSwitch) is not among the checked-in sources; only its
frontend callers and documentation are.  The definitions below are therefore
modelled from the specification text (spec sections 3-4), as marked. -/

/-- Modelled from the spec: a `TeamMember` is
`(username, email, displayName)` (spec section 3); the backend source
holding this record is missing from the checked-in tree. -/
structure TeamMember where
  username : List Char
  email : List Char
  displayName : List Char
deriving DecidableEq, Repr

/-- Modelled from the spec: a `CommitSpec` carries a sequence index, a
timestamp (epoch seconds), an author, a message and a snapshot reference
(spec section 3); the planner source is missing from the checked-in tree. -/
structure CommitSpec where
  sequenceIndex : Nat
  timestamp : Nat
  author : TeamMember
  message : List Char
  snapshotRef : Nat
deriving DecidableEq, Repr

/-- Modelled from the spec: a `CommitPlan` is an ordered sequence of
`CommitSpec` plus the target branch set (spec section 3). -/
structure CommitPlan where
  specs : List CommitSpec
  targetBranches : List (List Char)
deriving DecidableEq, Repr

/-- Modelled from the spec: validation failures of the planner
(spec section 4.1). -/
inductive PlanningError where
  | invalidDuration
  | invalidStepCount
  | windowTooSmall
deriving DecidableEq, Repr

/-- Modelled from the spec: the synthetic identity generated when the
roster is empty (spec section 4.1; identity text from the project
documentation). -/
def syntheticIdentity : TeamMember :=
  ⟨"hackathon-dev".toList, "dev@hackathon.com".toList, "Hackathon Dev".toList⟩

/-- Modelled from the spec: deterministic non-uniform jitter used to spread
timestamps inside their slots (spec section 4.1 asks for clustered,
seed-deterministic jitter). -/
def jitter (seed i : Nat) : Nat :=
  (seed + 1) * 2654435761 * (i + 1) * (i + 1) + i * 40503

/-- Modelled from the spec: the external commit-message generator, treated
as a pure function of minimal context (spec sections 1 and 4.1). -/
def messageFor (i total : Nat) : List Char :=
  "step ".toList ++ (Nat.toDigits 10 (i + 1)) ++ " of ".toList ++ Nat.toDigits 10 total

/-- Timestamp of step `i`: the start of the step's slot plus a
seed-deterministic jitter inside the slot. -/
def planTimestamp (windowStart slot seed i : Nat) : Nat :=
  windowStart + i * slot + jitter seed i % slot

/-- Modelled from the spec: `TimelinePlanner.plan` (spec section 4.1).
Validates that the duration is a positive integer within 1-168 hours and
that at least one step is requested; additionally the step count must fit
the window at one-second timestamp granularity, which strict monotonicity
requires.  Timestamps are spread over `[windowStart, windowStart+duration)`
in slots of `duration/stepCount` seconds with seed-deterministic jitter
inside each slot; authors are assigned round-robin over the roster, with a
single synthetic identity generated when the roster is empty. -/
def plan (windowStart durationHours : Nat) (roster : List TeamMember)
    (stepCount : Nat) (seed : Nat) : Except PlanningError CommitPlan :=
  if durationHours < 1 ∨ 168 < durationHours then .error .invalidDuration
  else if stepCount < 1 then .error .invalidStepCount
  else if durationHours * 3600 < stepCount then .error .windowTooSmall
  else
    let total := durationHours * 3600
    let slot := total / stepCount
    let roster' := if roster.isEmpty then [syntheticIdentity] else roster
    .ok
      { specs :=
          (List.range stepCount).map fun i =>
            { sequenceIndex := i
              timestamp := planTimestamp windowStart slot seed i
              author := roster'.getD (i % roster'.length) syntheticIdentity
              message := messageFor i stepCount
              snapshotRef := i }
        targetBranches := [] }

/-- Commit of the modelled repository: a content (tree) hash plus the
history metadata the rewrite synthesizes. -/
structure Commit where
  tree : Nat
  timestamp : Nat
  author : TeamMember
  message : List Char
deriving DecidableEq, Repr

/-- Branch name. -/
abbrev BranchName := List Char

/-- Modelled from the spec: a repository is a set of branches (each a
commit list, tip first), the current HEAD branch and the working tree
(spec section 3).  Content is identified by tree hash (glossary). -/
structure Repository where
  branches : List (BranchName × List Commit)
  head : BranchName
  workingTree : Nat
deriving DecidableEq, Repr

/-- Looks a branch up by name. -/
def lookupBranch (r : Repository) (b : BranchName) : Option (List Commit) :=
  (r.branches.find? fun p => p.1 = b).map (·.2)

/-- Tree hash at the tip of a branch, when the branch exists and is
non-empty. -/
def tipTree (r : Repository) (b : BranchName) : Option Nat :=
  (lookupBranch r b).bind fun h => h.head?.map (·.tree)

/-- Moves one branch ref to a new history, leaving every other ref alone. -/
def updateRef (r : Repository) (b : BranchName) (h : List Commit) : Repository :=
  { r with branches := r.branches.map fun p => if p.1 = b then (p.1, h) else p }

/-- Modelled from the spec: the RecoveryVault snapshot captured before any
destructive rewrite; its restore pointer is the full set of pre-rewrite
ref pointers together with HEAD and the working tree (spec sections 2-3). -/
structure VaultSnapshot where
  refs : List (BranchName × List Commit)
  headRef : BranchName
  workingTree : Nat
deriving DecidableEq, Repr

/-- Modelled from the spec: RecoveryVault capture (spec section 2). -/
def captureVault (r : Repository) : VaultSnapshot :=
  ⟨r.branches, r.head, r.workingTree⟩

/-- Modelled from the spec: restoring from the vault rewrites every ref
pointer, HEAD and the working tree back to the captured state
(spec sections 4.2 and 8, rollback correctness). -/
def restoreVault (v : VaultSnapshot) : Repository :=
  ⟨v.refs, v.headRef, v.workingTree⟩

/-- Modelled from the spec: a `SnapshotSource` supplies the tree applied at
each plan step; an empty source is single-snapshot mode, in which every
step applies the captured final tree (spec sections 2 and 4.2 step 3). -/
abbrev SnapshotSource := List Nat

/-- Tree applied at step `i` given captured final tree `t`: the source's
entry when it provides one, the captured tree otherwise. -/
def treeFor (src : SnapshotSource) (t : Nat) (i : Nat) : Nat :=
  (src.get? i).getD t

/-- Modelled from the spec: rewrite failure codes (spec section 6). -/
inductive RewriteError where
  | preconditionFailed
  | stepFailure (step : Nat)
  | contentMismatch
deriving DecidableEq, Repr

/-- New history for one branch: one commit per plan spec, tip first, each
commit taking its tree from the snapshot source and its timestamp, author
and message from the spec (spec section 4.2 steps 2-4). -/
def rewrittenHistory (src : SnapshotSource) (t : Nat) (specs : List CommitSpec) :
    List Commit :=
  (specs.map fun s => Commit.mk (treeFor src t s.snapshotRef) s.timestamp s.author s.message).reverse

/-- Modelled from the spec: the content-equality precondition of
`HistoryRewriter.rewrite` — every target branch must exist and its tip
tree must equal the tree the plan's final step will produce
(spec section 4.2, preconditions). -/
def preconditionsOk (r : Repository) (src : SnapshotSource) (plan : CommitPlan) : Bool :=
  plan.targetBranches.all fun b =>
    match tipTree r b with
    | some t =>
        decide ((rewrittenHistory src t plan.specs).head?.map (·.tree) = some t)
    | none => false

/-- Tests whether the injected failure index falls among the commit steps
of the branch currently being replayed. -/
def failHit (failAt : Option Nat) (c len : Nat) : Bool :=
  match failAt with
  | some k => decide (c ≤ k ∧ k < c + len)
  | none => false

/-- Modelled from the spec: the per-branch loop of `HistoryRewriter.rewrite`
(spec section 4.2).  `counter` numbers the commit-creation steps across the
whole invocation and `failAt` injects a forced failure at one such step,
modelling a mid-rewrite error; any failure restores the vault snapshot and
aborts the entire invocation (spec section 4.2, failure semantics).  After
replaying a branch, the new tip's tree is verified against the tip tree
captured from the current state before the ref moves (spec section 4.2
steps 1 and 5). -/
def rewriteGo (vault : VaultSnapshot) (src : SnapshotSource)
    (specs : List CommitSpec) (failAt : Option Nat) :
    List BranchName → Nat → Repository → Repository × Except RewriteError Unit
  | [], _, st => (st, .ok ())
  | b :: bs, counter, st =>
      if failHit failAt counter specs.length then
        (restoreVault vault, .error (.stepFailure (failAt.getD 0)))
      else
        let captured := tipTree st b
        let newHist := rewrittenHistory src (captured.getD 0) specs
        if (newHist.head?.map (·.tree)) = captured then
          rewriteGo vault src specs failAt bs (counter + specs.length)
            (updateRef st b newHist)
        else
          (restoreVault vault, .error .contentMismatch)

/-- Modelled from the spec: `HistoryRewriter.rewrite` (spec section 4.2).
Captures the vault snapshot first, rejects when the content-equality
precondition fails, then replays the plan branch by branch; returns the
resulting repository state together with the outcome. -/
def rewrite (r : Repository) (src : SnapshotSource) (plan : CommitPlan)
    (failAt : Option Nat) : Repository × Except RewriteError Unit :=
  let vault := captureVault r
  if preconditionsOk r src plan then
    rewriteGo vault src plan.specs failAt plan.targetBranches 0 r
  else (r, .error .preconditionFailed)

/-- Modelled from the spec: the placeholder working tree the PanicSwitch
installs — fixed, deterministic content independent of the original
project (spec section 4.4). -/
def placeholderTree : Nat := 1

/-- Modelled from the spec: the launchable entry point of the placeholder
application (spec section 4.4; the frontend opens `index_file_path`). -/
def placeholderEntryPoint : List Char := "index.html".toList

/-- Modelled from the spec: the generic placeholder identity used when no
roster is supplied (spec section 4.4). -/
def placeholderIdentity : TeamMember :=
  ⟨"dev".toList, "dev@example.com".toList, "Developer".toList⟩

/-- Modelled from the spec: the author of the panic commit is drawn from
the roster when one is supplied, else the generic placeholder identity
(spec section 4.4); the draw is seed-deterministic. -/
def panicAuthor (roster : List TeamMember) (seed : Nat) : TeamMember :=
  if roster.isEmpty then placeholderIdentity
  else roster.getD (seed % roster.length) placeholderIdentity

/-- Modelled from the spec: a `RecoverySnapshot` records the original
remote URL, the original author identity, a capture time and a restore
hint (spec section 3); it is persisted as a side-car artifact. -/
structure RecoverySnapshot where
  originalRemoteUrl : List Char
  originalAuthorIdentity : TeamMember
  capturedAt : Nat
  restoreHint : List (BranchName × List Commit)
deriving DecidableEq, Repr

/-- Serialized form of the persisted recovery artifact
(`.panic_recovery_info.json` in the frontend): the labelled original
remote and author identity.  The labels make the text non-empty. -/
def serializeSnapshot (s : RecoverySnapshot) : List Char :=
  "remote: ".toList ++ s.originalRemoteUrl ++ "\nauthor: ".toList ++
    s.originalAuthorIdentity.username ++ "\nemail: ".toList ++
    s.originalAuthorIdentity.email

/-- Result of the panic fast path, as surfaced to the caller
(spec sections 4.4 and 6). -/
structure RecoveryOutcome where
  newCommit : Commit
  snapshotText : List Char
  entryPoint : List Char
deriving DecidableEq, Repr

/-- Modelled from the spec: `PanicSwitch.collapse` (spec section 4.4).
Captures a recovery snapshot first, replaces the working tree with the
fixed placeholder, and creates exactly one commit on the current branch
only; every other branch is left untouched. -/
def collapse (r : Repository) (remoteUrl : List Char) (origAuthor : TeamMember)
    (roster : List TeamMember) (seed now : Nat) :
    Repository × RecoverySnapshot × RecoveryOutcome :=
  let snap : RecoverySnapshot := ⟨remoteUrl, origAuthor, now, r.branches⟩
  let c : Commit := ⟨placeholderTree, now, panicAuthor roster seed,
    "Initial commit".toList⟩
  let r' : Repository := { updateRef r r.head [c] with workingTree := placeholderTree }
  (r', snap, ⟨c, serializeSnapshot snap, placeholderEntryPoint⟩)

/-! ## TaskRegistry, modelled from the specification (sections 3 and 4.3). -/

/-- Modelled from the spec: task lifecycle states (spec section 3). -/
inductive TaskStatus where
  | pending
  | running
  | completed
  | failed
  | cancelled
deriving DecidableEq, Repr

/-- Terminal states are `completed`, `failed` and `cancelled`. -/
def TaskStatus.isTerminal : TaskStatus → Bool
  | .completed => true
  | .failed => true
  | .cancelled => true
  | _ => false

/-- Modelled from the spec: a `Task` record (spec section 3). -/
structure Task where
  id : Nat
  kind : List Char
  status : TaskStatus
  progress : Nat
  currentOperationLabel : List Char
  createdAt : Nat
deriving DecidableEq, Repr

/-- Modelled from the spec: the structured error signalled when a terminal
task is mutated (spec sections 4.3 and 6). -/
inductive TaskError where
  | invalidTaskState
deriving DecidableEq, Repr

/-- Modelled from the spec: `updateProgress` (spec section 4.3).  A
terminal task rejects the update with `InvalidTaskStateError`; otherwise
progress moves to the new percentage, clamped to 0-100 and never below the
progress already recorded, so that progress is monotonic non-decreasing
while the task runs. -/
def updateProgress (t : Task) (pct : Nat) (label : List Char) :
    Except TaskError Task :=
  if t.status.isTerminal then .error .invalidTaskState
  else .ok { t with progress := max t.progress (min pct 100),
                    currentOperationLabel := label }

/-- Modelled from the spec: `complete` finalizes a task (spec section 4.3);
a task that is already terminal rejects the transition. -/
def finishTask (t : Task) (outcome : TaskStatus) : Except TaskError Task :=
  if t.status.isTerminal then .error .invalidTaskState
  else .ok { t with status := outcome, currentOperationLabel := t.currentOperationLabel }

/-- Mutation attempts against a task. -/
inductive TaskUpdate where
  | progress (pct : Nat) (label : List Char)
  | finish (outcome : TaskStatus)

/-- Applies one mutation attempt: a rejected attempt leaves the recorded
task state unchanged. -/
def applyTaskUpdate (t : Task) : TaskUpdate → Task
  | .progress pct label =>
      match updateProgress t pct label with
      | .ok t' => t'
      | .error _ => t
  | .finish outcome =>
      match finishTask t outcome with
      | .ok t' => t'
      | .error _ => t

/-! ## Concrete sample data used by witnesses. -/

/-- Sample author for witness repositories. -/
def sampleAuthor : TeamMember :=
  ⟨"alice".toList, "alice@example.com".toList, "Alice".toList⟩

/-- Sample two-branch repository for witnesses. -/
def sampleRepo : Repository :=
  ⟨[("main".toList, [⟨5, 10, sampleAuthor, "init".toList⟩]),
    ("dev".toList, [⟨7, 11, sampleAuthor, "wip".toList⟩])],
   "main".toList, 5⟩

/-- Sample two-step plan targeting the main branch of `sampleRepo`. -/
def samplePlan : CommitPlan :=
  ⟨[⟨0, 100, sampleAuthor, "start".toList, 0⟩,
    ⟨1, 200, sampleAuthor, "more".toList, 1⟩],
   ["main".toList]⟩

/-- Plan produced by the planner at the spec's example parameters
(48-hour window, empty roster, six steps). -/
def planSample : CommitPlan :=
  match plan 0 48 [] 6 0 with
  | .ok p => p
  | .error _ => ⟨[], []⟩

/-! ## Theorems -/

/-- Claim C9: `toggleFolder` returns a new set (the embedding is pure, so
the input set is never mutated) and toggling the same folder twice
restores the original expanded-folder set. -/
theorem toggleFolder_involutive (s : Finset String) (p : String) :
    toggleFolder (toggleFolder s p) p = s := by
  unfold toggleFolder
  by_cases h : p ∈ s
  · simp [h, Finset.not_mem_erase, Finset.insert_erase h]
  · simp [h, Finset.erase_insert h]

/-- Counterexample for claim C7: the frontend consumer assigns categories
by parsing the bracket tags out of the rendered log text — two lines whose
free text is identical but whose embedded tag differs receive different
categories, and a line with no tag gets the default, so the category is a
function of the rendered text, not of any explicit field. -/
theorem categorize_parses_tags_from_text :
    categorizeTerminalOutput "[12:00:01] [git] Created commit".toList =
        LogCategory.git ∧
    categorizeTerminalOutput "[12:00:01] [code] Created commit".toList =
        LogCategory.code ∧
    categorizeTerminalOutput "[12:00:01] [system] Created commit".toList =
        LogCategory.system ∧
    categorizeTerminalOutput "[12:00:01] Created commit".toList =
        LogCategory.general := by
  decide

/-- Claim C7 (amended): log lines carry no category field; the consumer
determines each line's category by substring-matching the tags
`[git]`, `[code]`, `[system]` in the rendered text, in that precedence
order, defaulting to `general` when no tag occurs. -/
theorem categorizeTerminalOutput_characterization (line : List Char) :
    (categorizeTerminalOutput line = .git ↔
      containsSub line "[git]".toList = true) ∧
    (categorizeTerminalOutput line = .code ↔
      (containsSub line "[git]".toList = false ∧
       containsSub line "[code]".toList = true)) ∧
    (categorizeTerminalOutput line = .system ↔
      (containsSub line "[git]".toList = false ∧
       containsSub line "[code]".toList = false ∧
       containsSub line "[system]".toList = true)) ∧
    (categorizeTerminalOutput line = .general ↔
      (containsSub line "[git]".toList = false ∧
       containsSub line "[code]".toList = false ∧
       containsSub line "[system]".toList = false)) := by
  unfold categorizeTerminalOutput
  split_ifs with h1 h2 h3 <;> simp_all

/-- Helper: `endsWith l s` holds exactly when `l` splits as some list
followed by `s`. -/
theorem endsWith_iff {l s : List Char} :
    endsWith l s = true ↔ ∃ a, l = a ++ s := by
  unfold endsWith
  rw [decide_eq_true_iff]
  constructor
  · intro h
    refine ⟨l.take (l.length - s.length), ?_⟩
    conv_lhs => rw [← List.take_append_drop (l.length - s.length) l]
    rw [h]
  · rintro ⟨a, rfl⟩
    simp [List.length_append]

/-- Helper: a list ending in the newline-prefixed closing fence also ends
in the bare fence. -/
theorem endsWith_fence_of_closeFence {l : List Char}
    (h : endsWith l closeFence = true) : endsWith l fenceMark = true := by
  rw [endsWith_iff] at h ⊢
  obtain ⟨a, rfl⟩ := h
  exact ⟨a ++ ['\n'], by simp [closeFence, fenceMark]⟩

/-- Helper: dropping a suffix of known length recovers the front part. -/
theorem dropRight_append (a s : List Char) :
    dropRight (a ++ s) s.length = a := by
  unfold dropRight
  rw [List.length_append, Nat.add_sub_cancel, List.take_left]

/-- Helper: appending a suffix makes `endsWith` true. -/
theorem endsWith_append (a s : List Char) : endsWith (a ++ s) s = true := by
  rw [endsWith_iff]; exact ⟨a, rfl⟩

/-- Helper: `takeWhile` of word characters stops exactly at the newline
separating the language word from the block body. -/
theorem takeWhile_word_append (lang r : List Char)
    (h : ∀ c ∈ lang, isWordChar c = true) :
    (lang ++ '\n' :: r).takeWhile isWordChar = lang := by
  induction lang with
  | nil => simp [List.takeWhile_cons, isWordChar]
  | cons c cs ih =>
      simp only [List.cons_append, List.takeWhile_cons,
        h c (List.mem_cons_self c cs), if_true]
      rw [ih fun d hd => h d (List.mem_cons_of_mem c hd)]

/-- Counterexample for claim C8: for the fenced block whose body is
`"x\n" ++ fence` (with a closing fence), `stripMarkdownWrapper` strips a
fence out of the body as well, so it does not return the body. -/
theorem stripMarkdownWrapper_counterexample :
    stripMarkdownWrapper (mkFenced [] "x\n```".toList true) ≠ "x\n```".toList := by
  decide

/-- Claim C8 (amended): a string not beginning with a code fence is
returned unchanged, and a fenced block (optional language word, optional
trailing fence) is stripped to exactly its body, provided the body does
not itself end with a fence. -/
theorem stripMarkdownWrapper_spec :
    (∀ content : List Char, content.take 3 ≠ fenceMark →
        stripMarkdownWrapper content = content) ∧
    (∀ (lang body : List Char) (closed : Bool),
        (∀ c ∈ lang, isWordChar c = true) →
        endsWith body fenceMark = false →
        stripMarkdownWrapper (mkFenced lang body closed) = body) := by
  constructor
  · intro content h
    unfold stripMarkdownWrapper
    rw [if_neg h]
  · intro lang body closed hlang hbody
    have hbody' : endsWith body closeFence = false := by
      cases hc : endsWith body closeFence
      · rfl
      · rw [endsWith_fence_of_closeFence hc] at hbody
        simp at hbody
    have hcap : stripCapture (body ++ if closed then closeFence else []) = body := by
      cases closed with
      | true =>
          show stripCapture (body ++ closeFence) = body
          unfold stripCapture
          rw [endsWith_append body closeFence, if_pos rfl]
          have h4 : (4 : Nat) = closeFence.length := by decide
          rw [h4, dropRight_append]
      | false =>
          show stripCapture (body ++ []) = body
          rw [List.append_nil]
          unfold stripCapture
          rw [hbody']
          simp
    have htrail : stripTrail body = body := by
      unfold stripTrail
      rw [hbody', hbody]
      simp
    have hm : mkFenced lang body closed =
        fenceMark ++ (lang ++ '\n' :: (body ++ if closed then closeFence else [])) := by
      simp [mkFenced, List.append_assoc]
    rw [hm]
    unfold stripMarkdownWrapper
    have h3 : (3 : Nat) = fenceMark.length := by decide
    rw [if_pos (by rw [h3, List.take_left]), h3, List.drop_left,
      takeWhile_word_append _ _ hlang, List.drop_left]
    show stripTrail (stripCapture (body ++ if closed then closeFence else [])) = body
    rw [hcap]
    exact htrail

/-- Witness for claim C8: the spec theorem applied to a plain string and to
a concrete fenced block. -/
theorem stripMarkdownWrapper_spec_witness :
    stripMarkdownWrapper "plain text".toList = "plain text".toList ∧
    stripMarkdownWrapper (mkFenced "js".toList "body".toList true) = "body".toList :=
  ⟨stripMarkdownWrapper_spec.1 "plain text".toList (by decide),
   stripMarkdownWrapper_spec.2 "js".toList "body".toList true (by decide) (by decide)⟩

/-- Helper: the first editor variant preserves the history bounds. -/
theorem addToHistoryA_inv (s : EditorState) (e : HistoryEntry)
    (h : editorInv s) : editorInv (addToHistoryA s e) := by
  obtain ⟨h1, h2⟩ := h
  simp only [editorInv, addToHistoryA]
  split_ifs with hc <;>
    simp only [List.length_drop, List.length_append, List.length_take,
      List.length_cons, List.length_nil] at hc ⊢ <;> omega

/-- Helper: the first editor variant preserves the history bounds. -/
theorem stepA_inv (s : EditorState) (op : EditorOp) (h : editorInv s) :
    editorInv (stepA s op) := by
  cases op with
  | add e => exact addToHistoryA_inv s e h
  | update e => exact addToHistoryA_inv s e h
  | undo =>
      obtain ⟨h1, h2⟩ := h
      show editorInv (undoA s)
      unfold undoA
      split_ifs with hc
      · exact ⟨h1, show s.historyIndex - 1 < s.history.length by omega⟩
      · exact ⟨h1, h2⟩
  | redo =>
      obtain ⟨h1, h2⟩ := h
      show editorInv (redoA s)
      unfold redoA
      split_ifs with hc
      · exact ⟨h1, show s.historyIndex + 1 < s.history.length by omega⟩
      · exact ⟨h1, h2⟩

/-- Helper: the second editor variant preserves the history bounds. -/
theorem addToHistoryB_inv (s : EditorState) (e : HistoryEntry)
    (h : editorInv s) : editorInv (addToHistoryB s e) := by
  obtain ⟨h1, h2⟩ := h
  simp only [editorInv, addToHistoryB]
  split_ifs with hc <;>
    simp only [List.length_drop, List.length_append, List.length_take,
      List.length_cons, List.length_nil] at hc ⊢ <;> omega

/-- Helper: the second editor variant preserves the history bounds. -/
theorem stepB_inv (s : EditorState) (op : EditorOp) (h : editorInv s) :
    editorInv (stepB s op) := by
  cases op with
  | add e => exact addToHistoryB_inv s e h
  | update e => exact addToHistoryB_inv s e h
  | undo =>
      obtain ⟨h1, h2⟩ := h
      exact ⟨h1, show s.historyIndex - 1 < s.history.length by omega⟩
  | redo =>
      obtain ⟨h1, h2⟩ := h
      exact ⟨h1,
        show min (s.history.length - 1) (s.historyIndex + 1) < s.history.length
          by omega⟩

/-- Helper: folding editor operations preserves the bounds. -/
theorem foldl_editor_inv (step : EditorState → EditorOp → EditorState)
    (hstep : ∀ s op, editorInv s → editorInv (step s op)) :
    ∀ (ops : List EditorOp) (s : EditorState), editorInv s →
      editorInv (ops.foldl step s) := by
  intro ops
  induction ops with
  | nil => intro s h; exact h
  | cons op ops ih => intro s h; exact ih (step s op) (hstep s op h)

/-- Claim C10: starting from the initialized editor, any sequence of
addToHistory, updateContent, undo and redo operations (in either component
variant) keeps the history at 50 entries or fewer and the history index
inside `[0, history.length - 1]`. -/
theorem editor_history_bounded (v : List Char) (t : Nat) (ops : List EditorOp) :
    editorInv (ops.foldl stepA (initialEditorState v t)) ∧
    editorInv (ops.foldl stepB (initialEditorState v t)) := by
  have hinit : editorInv (initialEditorState v t) := by
    simp [editorInv, initialEditorState]
  exact ⟨foldl_editor_inv stepA stepA_inv ops _ hinit,
    foldl_editor_inv stepB stepB_inv ops _ hinit⟩

/-- Helper: one mutation attempt never decreases recorded progress. -/
theorem applyTaskUpdate_progress_le (t : Task) (u : TaskUpdate) :
    t.progress ≤ (applyTaskUpdate t u).progress := by
  cases u with
  | progress pct label =>
      unfold applyTaskUpdate updateProgress
      split_ifs with hterm
      · exact le_refl _
      · exact le_max_left _ _
  | finish outcome =>
      unfold applyTaskUpdate finishTask
      split_ifs with hterm <;> exact le_refl _

/-- Helper: a terminal task is left unchanged by any mutation attempt. -/
theorem applyTaskUpdate_terminal (t : Task) (u : TaskUpdate)
    (h : t.status.isTerminal = true) : applyTaskUpdate t u = t := by
  cases u with
  | progress pct label =>
      simp only [applyTaskUpdate, updateProgress]
      rw [if_pos h]
  | finish outcome =>
      simp only [applyTaskUpdate, finishTask]
      rw [if_pos h]

/-- Helper: progress never decreases over a sequence of mutation
attempts. -/
theorem foldl_progress_le (us : List TaskUpdate) :
    ∀ t : Task, t.progress ≤ (us.foldl applyTaskUpdate t).progress := by
  induction us with
  | nil => intro t; exact le_refl _
  | cons u us ih =>
      intro t
      exact le_trans (applyTaskUpdate_progress_le t u) (ih (applyTaskUpdate t u))

/-- Helper: a terminal task is unchanged by any sequence of mutation
attempts. -/
theorem foldl_terminal_fixed (us : List TaskUpdate) (t : Task)
    (h : t.status.isTerminal = true) : us.foldl applyTaskUpdate t = t := by
  induction us with
  | nil => rfl
  | cons u us ih => rw [List.foldl_cons, applyTaskUpdate_terminal t u h, ih]

/-- Claim C6: a task's progress is monotonic non-decreasing under any
sequence of updates (in particular while it is running), and once the task
is in a terminal state every update attempt is rejected with
`InvalidTaskStateError` and the recorded state is unchanged, over any
sequence of further attempts. -/
theorem task_lifecycle (t : Task) (us : List TaskUpdate) (pct : Nat)
    (label : List Char) (outcome : TaskStatus) :
    (t.status.isTerminal = true →
      updateProgress t pct label = .error .invalidTaskState ∧
      finishTask t outcome = .error .invalidTaskState ∧
      us.foldl applyTaskUpdate t = t) ∧
    t.progress ≤ (us.foldl applyTaskUpdate t).progress := by
  refine ⟨fun hterm => ⟨?_, ?_, foldl_terminal_fixed us t hterm⟩,
    foldl_progress_le us t⟩
  · unfold updateProgress; rw [if_pos hterm]
  · unfold finishTask; rw [if_pos hterm]

/-- Witness for claim C6: the lifecycle theorem applied to a concrete
completed task and a concrete update sequence. -/
theorem task_lifecycle_witness :
    (updateProgress ⟨1, "rewrite".toList, .completed, 100, [], 0⟩ 10 [] =
        .error .invalidTaskState ∧
      finishTask ⟨1, "rewrite".toList, .completed, 100, [], 0⟩ .failed =
        .error .invalidTaskState ∧
      [TaskUpdate.progress 10 [], TaskUpdate.finish .failed].foldl applyTaskUpdate
          ⟨1, "rewrite".toList, .completed, 100, [], 0⟩ =
        ⟨1, "rewrite".toList, .completed, 100, [], 0⟩) ∧
    (⟨1, "rewrite".toList, .completed, 100, [], 0⟩ : Task).progress ≤
      ([TaskUpdate.progress 10 [], TaskUpdate.finish .failed].foldl applyTaskUpdate
        ⟨1, "rewrite".toList, .completed, 100, [], 0⟩).progress :=
  ⟨(task_lifecycle ⟨1, "rewrite".toList, .completed, 100, [], 0⟩
      [TaskUpdate.progress 10 [], TaskUpdate.finish .failed] 10 [] .failed).1
      (by decide),
   (task_lifecycle ⟨1, "rewrite".toList, .completed, 100, [], 0⟩
      [TaskUpdate.progress 10 [], TaskUpdate.finish .failed] 10 [] .failed).2⟩

/-- Helper: with a positive slot, step timestamps are strictly increasing
in the step index. -/
theorem planTimestamp_mono (ws slot seed : Nat) (hslot : 0 < slot)
    {i j : Nat} (hij : i < j) :
    planTimestamp ws slot seed i < planTimestamp ws slot seed j := by
  unfold planTimestamp
  have hri : jitter seed i % slot < slot := Nat.mod_lt _ hslot
  have hmul : (i + 1) * slot ≤ j * slot := Nat.mul_le_mul_right _ hij
  have hsm : (i + 1) * slot = i * slot + slot := Nat.succ_mul _ _
  omega

/-- Helper: every step timestamp lies inside the planning window. -/
theorem planTimestamp_bound (ws seed total n i : Nat) (hn : 0 < n)
    (hi : i < n) (htot : n ≤ total) :
    ws ≤ planTimestamp ws (total / n) seed i ∧
    planTimestamp ws (total / n) seed i ≤ ws + total := by
  unfold planTimestamp
  have hslot : 0 < total / n := (Nat.one_le_div_iff hn).2 htot
  have hr : jitter seed i % (total / n) < total / n := Nat.mod_lt _ hslot
  have h1 : (i + 1) * (total / n) ≤ n * (total / n) := Nat.mul_le_mul_right _ hi
  have h2 : total / n * n ≤ total := Nat.div_mul_le_self total n
  have h3 : n * (total / n) = total / n * n := Nat.mul_comm _ _
  have hsm : (i + 1) * (total / n) = i * (total / n) + total / n :=
    Nat.succ_mul _ _
  omega

/-- Claim C3: every CommitPlan the planner generates has strictly
increasing timestamps, all lying within the hackathon window
`[windowStart, windowStart + durationHours * 3600]`. -/
theorem plan_timestamps (ws dh : Nat) (roster : List TeamMember)
    (n seed : Nat) (p : CommitPlan)
    (h : plan ws dh roster n seed = .ok p) :
    List.Pairwise (· < ·) (p.specs.map (·.timestamp)) ∧
    ∀ ts ∈ p.specs.map (·.timestamp), ws ≤ ts ∧ ts ≤ ws + dh * 3600 := by
  unfold plan at h
  split at h
  · simp at h
  · split at h
    · simp at h
    · split at h
      · simp at h
      · rename_i h1 h2 h3
        injection h with h
        subst h
        have hn : 0 < n := by omega
        have htot : n ≤ dh * 3600 := by omega
        have hslot : 0 < dh * 3600 / n := (Nat.one_le_div_iff hn).2 htot
        constructor
        · rw [List.map_map, List.pairwise_map]
          exact (List.pairwise_lt_range n).imp
            fun hij => planTimestamp_mono ws _ seed hslot hij
        · rw [List.map_map]
          intro ts hts
          rw [List.mem_map] at hts
          obtain ⟨i, hi, rfl⟩ := hts
          rw [List.mem_range] at hi
          exact planTimestamp_bound ws seed (dh * 3600) n i hn hi htot

/-- Witness for claim C3: the timestamp theorem applied at the spec's
example parameters (48-hour window, six steps, empty roster). -/
theorem plan_timestamps_witness :
    List.Pairwise (· < ·) (planSample.specs.map (·.timestamp)) ∧
    ∀ ts ∈ planSample.specs.map (·.timestamp), 0 ≤ ts ∧ ts ≤ 0 + 48 * 3600 :=
  plan_timestamps 0 48 [] 6 0 planSample rfl

/-- Claim C5: the planner rejects a duration outside 1-168 hours and a step
count below 1 with a `PlanningError` (and, being total with an `Except`
result, never partially returns a plan), while an empty roster is accepted
on otherwise valid inputs, generating a single synthetic identity that
authors every step. -/
theorem plan_validation :
    (∀ (ws dh : Nat) (roster : List TeamMember) (n seed : Nat),
        dh < 1 ∨ 168 < dh ∨ n < 1 →
        ∃ e : PlanningError, plan ws dh roster n seed = .error e) ∧
    (∀ ws dh n seed : Nat, 1 ≤ dh → dh ≤ 168 → 1 ≤ n → n ≤ dh * 3600 →
        ∃ p : CommitPlan, plan ws dh [] n seed = .ok p ∧
          ∀ sp ∈ p.specs, sp.author = syntheticIdentity) := by
  constructor
  · intro ws dh roster n seed hbad
    unfold plan
    rcases hbad with h | h | h
    · rw [if_pos (Or.inl h)]; exact ⟨_, rfl⟩
    · rw [if_pos (Or.inr h)]; exact ⟨_, rfl⟩
    · by_cases hd : dh < 1 ∨ 168 < dh
      · rw [if_pos hd]; exact ⟨_, rfl⟩
      · rw [if_neg hd, if_pos h]; exact ⟨_, rfl⟩
  · intro ws dh n seed hd1 hd2 hn1 hcap
    unfold plan
    rw [if_neg (by omega), if_neg (by omega), if_neg (by omega)]
    refine ⟨_, rfl, ?_⟩
    intro sp hsp
    simp only [List.mem_map] at hsp
    obtain ⟨i, hi, rfl⟩ := hsp
    simp [Nat.mod_one]

/-- Witness for claim C5: the validation theorem applied to a rejected
duration of 200 hours and to the accepted 48-hour, six-step, empty-roster
configuration. -/
theorem plan_validation_witness :
    (∃ e, plan 0 200 [] 6 0 = .error e) ∧
    (∃ p, plan 0 48 [] 6 0 = .ok p ∧ ∀ sp ∈ p.specs, sp.author = syntheticIdentity) :=
  ⟨plan_validation.1 0 200 [] 6 0 (by omega),
   plan_validation.2 0 48 6 0 (by omega) (by omega) (by omega) (by omega)⟩

/-- Helper: moving one branch ref changes only that branch's lookup; the
moved branch maps to the new history exactly when it existed before. -/
theorem lookupBranch_updateRef (st : Repository) (b : BranchName)
    (nh : List Commit) (x : BranchName) :
    lookupBranch (updateRef st b nh) x =
      if x = b then (lookupBranch st x).map fun _ => nh
      else lookupBranch st x := by
  unfold lookupBranch updateRef
  rw [List.find?_map]
  have hcomp :
      ((fun p : BranchName × List Commit => decide (p.1 = x)) ∘ fun p =>
        if p.1 = b then (p.1, nh) else p) =
      fun p : BranchName × List Commit => decide (p.1 = x) := by
    funext p
    by_cases hc : p.1 = b
    · rw [Function.comp_apply, if_pos hc]
    · rw [Function.comp_apply, if_neg hc]
  rw [hcomp]
  cases hf : st.branches.find? fun p => decide (p.1 = x) with
  | none => simp
  | some p =>
      have hpx : p.1 = x := by
        have := List.find?_some hf
        simpa using this
      by_cases hpb : p.1 = b
      · rw [if_pos (hpx ▸ hpb)]
        simp [hpb]
      · rw [if_neg (hpx ▸ hpb)]
        simp [hpb]

/-- Helper: when the replayed history's tip tree matches the tip tree of
the branch being moved, moving the ref preserves every branch's tip
tree. -/
theorem tipTree_updateRef (st : Repository) (b : BranchName)
    (nh : List Commit) (hver : nh.head?.map (·.tree) = tipTree st b)
    (x : BranchName) : tipTree (updateRef st b nh) x = tipTree st x := by
  unfold tipTree
  rw [lookupBranch_updateRef]
  by_cases hxb : x = b
  · rw [if_pos hxb, hxb]
    unfold tipTree at hver
    cases hl : lookupBranch st b with
    | none => rfl
    | some hist =>
        rw [hl] at hver
        exact hver
  · rw [if_neg hxb]

/-- Helper: unfolding equation of the branch-replay loop at a non-empty
branch list. -/
theorem rewriteGo_cons (vault : VaultSnapshot) (src : SnapshotSource)
    (specs : List CommitSpec) (failAt : Option Nat) (b : BranchName)
    (bs : List BranchName) (c : Nat) (st : Repository) :
    rewriteGo vault src specs failAt (b :: bs) c st =
      if failHit failAt c specs.length = true then
        (restoreVault vault, .error (.stepFailure (failAt.getD 0)))
      else if (rewrittenHistory src ((tipTree st b).getD 0) specs).head?.map
          (·.tree) = tipTree st b then
        rewriteGo vault src specs failAt bs (c + specs.length)
          (updateRef st b (rewrittenHistory src ((tipTree st b).getD 0) specs))
      else (restoreVault vault, .error .contentMismatch) := rfl

/-- Helper: a successful branch-replay loop leaves every branch tip tree
exactly as it found it. -/
theorem rewriteGo_ok_tips (vault : VaultSnapshot) (src : SnapshotSource)
    (specs : List CommitSpec) (failAt : Option Nat) :
    ∀ (bs : List BranchName) (c : Nat) (st : Repository),
      (rewriteGo vault src specs failAt bs c st).2 = .ok () →
      ∀ x, tipTree (rewriteGo vault src specs failAt bs c st).1 x = tipTree st x := by
  intro bs
  induction bs with
  | nil => intro c st _ x; rfl
  | cons b bs ih =>
      intro c st hok x
      rw [rewriteGo_cons] at hok ⊢
      by_cases hhit : failHit failAt c specs.length = true
      · rw [if_pos hhit] at hok
        exact absurd hok (by simp)
      · rw [if_neg hhit] at hok ⊢
        by_cases hver :
            (rewrittenHistory src ((tipTree st b).getD 0) specs).head?.map
              (·.tree) = tipTree st b
        · rw [if_pos hver] at hok ⊢
          rw [ih _ _ hok x]
          exact tipTree_updateRef st b _ hver x
        · rw [if_neg hver] at hok
          exact absurd hok (by simp)

/-- Claim C1: whenever `rewrite` completes successfully, the tree hash at
the tip of every target branch is unchanged — the rewrite replaces history
metadata only, never final content. -/
theorem rewrite_content_preservation (r : Repository) (src : SnapshotSource)
    (pl : CommitPlan) (failAt : Option Nat)
    (h : (rewrite r src pl failAt).2 = .ok ()) :
    ∀ b ∈ pl.targetBranches,
      tipTree (rewrite r src pl failAt).1 b = tipTree r b := by
  intro b _
  unfold rewrite at h ⊢
  by_cases hpre : preconditionsOk r src pl = true
  · rw [if_pos hpre] at h ⊢
    exact rewriteGo_ok_tips _ _ _ _ _ _ _ h b
  · rw [if_neg hpre] at h
    exact absurd h (by simp)

/-- Witness for claim C1: the preservation theorem applied to a concrete
repository and a successful two-step single-snapshot rewrite of its main
branch. -/
theorem rewrite_content_preservation_witness :
    tipTree (rewrite sampleRepo [] samplePlan none).1 "main".toList =
      tipTree sampleRepo "main".toList :=
  rewrite_content_preservation sampleRepo [] samplePlan none rfl
    "main".toList (by decide)

/-- Claim C2: a failure injected at any step `k < n` of an `n`-step plan
(with at least one target branch) aborts the entire rewrite with an error
and leaves the repository byte-identical to its pre-rewrite state, restored
from the vault snapshot captured before the rewrite. -/
theorem rewrite_rollback (r : Repository) (src : SnapshotSource)
    (pl : CommitPlan) (k : Nat) (hb : pl.targetBranches ≠ [])
    (hk : k < pl.specs.length) :
    (rewrite r src pl (some k)).1 = r ∧
    ∃ e, (rewrite r src pl (some k)).2 = .error e := by
  unfold rewrite
  by_cases hpre : preconditionsOk r src pl = true
  · rw [if_pos hpre]
    cases hbs : pl.targetBranches with
    | nil => exact absurd hbs hb
    | cons b bs =>
        rw [rewriteGo_cons]
        have hhit : failHit (some k) 0 pl.specs.length = true := by
          simp only [failHit, decide_eq_true_eq]
          omega
        rw [if_pos hhit]
        exact ⟨rfl, _, rfl⟩
  · rw [if_neg hpre]
    exact ⟨rfl, _, rfl⟩

/-- Witness for claim C2: the rollback theorem applied to a concrete
repository and a failure forced at step 0 of the two-step plan. -/
theorem rewrite_rollback_witness :
    (rewrite sampleRepo [] samplePlan (some 0)).1 = sampleRepo ∧
    ∃ e, (rewrite sampleRepo [] samplePlan (some 0)).2 = .error e :=
  rewrite_rollback sampleRepo [] samplePlan 0 (by decide) (by decide)

/-- Helper: the serialized recovery artifact is never the empty string. -/
theorem serializeSnapshot_ne_nil (sp : RecoverySnapshot) :
    serializeSnapshot sp ≠ [] := by
  unfold serializeSnapshot
  intro h
  have hlen := congrArg List.length h
  simp only [List.length_append, List.length_nil] at hlen
  have h8 : ("remote: ".toList).length = 8 := by decide
  rw [h8] at hlen
  omega

/-- Helper: the repository returned by `collapse` looks up branches exactly
as the current branch's ref moved to the single panic commit. -/
theorem lookupBranch_collapse (r : Repository) (u : List Char)
    (a : TeamMember) (ro : List TeamMember) (seed now : Nat) (x : BranchName) :
    lookupBranch (collapse r u a ro seed now).1 x =
      lookupBranch
        (updateRef r r.head
          [⟨placeholderTree, now, panicAuthor ro seed, "Initial commit".toList⟩]) x :=
  rfl

/-- Claim C4: `collapse` leaves exactly one commit reachable on the current
branch, always produces a non-empty recovery snapshot, and leaves every
other branch's ref (and hence its commit count) unchanged. -/
theorem collapse_spec (r : Repository) (u : List Char) (a : TeamMember)
    (ro : List TeamMember) (seed now : Nat)
    (hhead : (lookupBranch r r.head).isSome = true) :
    (lookupBranch (collapse r u a ro seed now).1 r.head).map List.length =
        some 1 ∧
    (collapse r u a ro seed now).2.2.snapshotText ≠ [] ∧
    ∀ b, b ≠ r.head →
      lookupBranch (collapse r u a ro seed now).1 b = lookupBranch r b := by
  obtain ⟨hist, hh⟩ := Option.isSome_iff_exists.1 hhead
  refine ⟨?_, serializeSnapshot_ne_nil _, ?_⟩
  · rw [lookupBranch_collapse, lookupBranch_updateRef, if_pos rfl, hh]
    rfl
  · intro b hbneq
    rw [lookupBranch_collapse, lookupBranch_updateRef, if_neg hbneq]

/-- Witness for claim C4: the collapse theorem applied to the concrete
two-branch sample repository. -/
theorem collapse_spec_witness :
    (lookupBranch (collapse sampleRepo "url".toList sampleAuthor [] 0 99).1
        sampleRepo.head).map List.length = some 1 ∧
    (collapse sampleRepo "url".toList sampleAuthor [] 0 99).2.2.snapshotText ≠ [] ∧
    ∀ b, b ≠ sampleRepo.head →
      lookupBranch (collapse sampleRepo "url".toList sampleAuthor [] 0 99).1 b =
        lookupBranch sampleRepo b :=
  collapse_spec sampleRepo "url".toList sampleAuthor [] 0 99 (by decide)

end Chameleon
